import Mathlib

/-!
Verification of the genfft repository's specification against its two code
generators.

The repository contains two implementations of the same schedule-to-Go
translator:

* `genfft.go` — a hand-written character-class parser (`Expression.parse`),
  an emitter (`Expression.stringHelper`), transform-size inference
  (`Expression.transformLength`) and a `main` that assembles the output
  source text.

* a participle-based variant (in the unnamed main file) — `Expr` trees
  produced by a grammar-driven parser, rendered through the jennifer
  code-generation library (`Expr.Gen`, `Program.Gen`).

Both are embedded below.  Go strings are modelled as Lean `String`s (the
inputs are ASCII, so Go's byte indexing coincides with character indexing,
modelled through `String.data`).  Go code paths that panic (index out of
range, `strconv.ParseUint` failure passed to `panic`) are modelled with
`Option`: `none` means the Go program aborts before producing output.
The jennifer token stream of the participle variant is modelled as the
concatenation of the rendered tokens, with `.Parens(x)` contributing
`"(" ++ x ++ ")"`.
-/

/-! ### Data model of `genfft.go`

`Expression` mirrors the Go struct (`Op`, `Lit`, and the operand slice
`Expr`); the operand slice is represented by the mutually inductive
`ExprList` so that all functions below are structurally recursive and
evaluate inside the kernel.  The Go field `OpIdx` always equals
`len(Expr)-1` (it is incremented exactly when an operand is appended), so
it is represented implicitly: the current operand is the last element.
-/

mutual
inductive Expression where
  | mk (Op : String) (Lit : String) (Expr : ExprList)
inductive ExprList where
  | nil
  | cons (head : Expression) (tail : ExprList)
end

def Expression.Op : Expression → String
  | .mk o _ _ => o

def Expression.Lit : Expression → String
  | .mk _ l _ => l

def Expression.Expr : Expression → ExprList
  | .mk _ _ es => es

def ExprList.length : ExprList → Nat
  | .nil => 0
  | .cons _ es => 1 + es.length

/-- The Go zero value of `Expression` (what `new(Expression)` yields). -/
def Expression.empty : Expression := .mk "" "" .nil

/-- Models `Expression.IsUnary`: `len(expr.Expr) == 1`. -/
def Expression.IsUnary (e : Expression) : Bool := e.Expr.length == 1

def ExprList.headD : ExprList → Expression → Expression
  | .nil, d => d
  | .cons e _, _ => e

/-- Models `strings.HasPrefix(lit, "T")`. -/
def startsWithT (lit : String) : Bool := lit.data.head? == some 'T'

/-- Models `strings.HasSuffix(lit, "]")`. -/
def endsWithRBracket (lit : String) : Bool := lit.data.getLast? == some ']'

/-! ### The emitter of `genfft.go` (`Expression.stringHelper`)

The Go function builds the result `r` with a deferred closing parenthesis;
that is modelled by wrapping the assembled core in parentheses when
`depth > 1`.  The in-place operator rewrite (`=` to `:=` when the first
operand's literal starts with `T`) happens on a value receiver in Go, so it
is local to one rendering step, as here.  The loop over operands with its
`idx != 0` test is `ExprList.renderTail`: the first operand is rendered
with no preceding operator, and each later operand is preceded by the
operator, except that under `+` a unary `-` operand is folded to a bare
`-` followed by its single operand.  (Go would panic on an operator node
with an empty operand slice when testing `expr.Expr[0].Lit`; the parser
never produces one, and `ExprList.headD` supplies the zero value there.)
-/

mutual
def Expression.stringHelper : Expression → Nat → String
  | .mk Op Lit es, depth =>
    if Op = "" then Lit
    else
      let Op1 := if Op = "=" ∧ startsWithT (es.headD Expression.empty).Lit then ":=" else Op
      let core :=
        match es with
        | .cons c .nil => Op1 ++ c.stringHelper (depth + 1)
        | .nil => ""
        | .cons c rest => c.stringHelper (depth + 1) ++ ExprList.renderTail Op1 rest depth
      if depth > 1 then "(" ++ core ++ ")" else core
def ExprList.renderTail : String → ExprList → Nat → String
  | _, .nil, _ => ""
  | op, .cons y rest, depth =>
    (match op, y with
     | "+", .mk "-" _ (.cons z .nil) => "-" ++ z.stringHelper (depth + 1)
     | op, y => op ++ y.stringHelper (depth + 1))
    ++ ExprList.renderTail op rest depth
end

/-- Models `Expression.String`: `stringHelper` at depth `0`. -/
def Expression.string (e : Expression) : String := e.stringHelper 0

/-! ### The parser of `genfft.go` (`Expression.parse`)

`parseLoop fuel e cs` models one activation of the Go method `parse`
scanning the remaining characters `cs` with receiver state `e`, returning
the updated receiver and the character count the Go function returns.  The
`fuel` argument only makes the recursion structural (every loop step
consumes at least one character, so `fuel = cs.length` never runs out);
nothing else depends on it.  Case by case, following the Go `switch`:
`'('` recursively parses into the current (= last) operand — the callee
first appends a fresh operand, then scans — and resumes after the consumed
characters; `':'` is skipped; an operator character is stored in `Op` and
the following character is skipped (`idx += 1` plus the loop increment);
`' '` appends a fresh operand; `')'` returns the count including itself;
any other character is appended to the current operand's literal.
-/

def ExprList.push : ExprList → Expression → ExprList
  | .nil, c => .cons c .nil
  | .cons e es, c => .cons e (es.push c)

def ExprList.lastD : ExprList → Expression → Expression
  | .nil, d => d
  | .cons e es, d =>
    match es with
    | .nil => e
    | .cons _ _ => es.lastD d

def ExprList.setLast : ExprList → Expression → ExprList
  | .nil, _ => .nil
  | .cons e es, c =>
    match es with
    | .nil => .cons c .nil
    | .cons _ _ => .cons e (es.setLast c)

def Expression.pushChild : Expression → Expression → Expression
  | .mk o l es, c => .mk o l (es.push c)

def Expression.setOp : Expression → String → Expression
  | .mk _ l es, o => .mk o l es

def Expression.setLastChild : Expression → Expression → Expression
  | .mk o l es, c => .mk o l (es.setLast c)

def Expression.lastChildD (e : Expression) : Expression := e.Expr.lastD Expression.empty

/-- Appends one character to the literal of the current (last) operand,
modelling `expr.Expr[expr.OpIdx].Lit += line[idx : idx+1]`. -/
def Expression.appendLitLast : Expression → Char → Expression
  | .mk o l es, c =>
    .mk o l (es.setLast (match es.lastD Expression.empty with
      | .mk ho hl hes => .mk ho (hl.push c) hes))

def parseLoop : Nat → Expression → List Char → Expression × Nat
  | 0, e, _ => (e, 0)
  | _ + 1, e, [] => (e, 0)
  | fuel + 1, e, c :: cs =>
    if c = '(' then
      let inner := parseLoop fuel (e.lastChildD.pushChild Expression.empty) cs
      let rest := parseLoop fuel (e.setLastChild inner.1) (cs.drop inner.2)
      (rest.1, 1 + inner.2 + rest.2)
    else if c = ':' then
      let r := parseLoop fuel e cs
      (r.1, 1 + r.2)
    else if c = '=' ∨ c = '+' ∨ c = '-' ∨ c = '*' then
      let r := parseLoop fuel (e.setOp (String.singleton c)) (cs.drop 1)
      (r.1, 2 + r.2)
    else if c = ' ' then
      let r := parseLoop fuel (e.pushChild Expression.empty) cs
      (r.1, 1 + r.2)
    else if c = ')' then
      (e, 1)
    else
      let r := parseLoop fuel (e.appendLitLast c) cs
      (r.1, 1 + r.2)

/-- Models `Expression.Parse`: parse `line[2:]` into a zero-valued root
(the callee appends the root's first operand before scanning). -/
def Expression.Parse (line : String) : Expression :=
  (parseLoop line.length (Expression.empty.pushChild Expression.empty) (line.data.drop 2)).1

/-! ### Transform-size inference of `genfft.go` -/

/-- Decimal value of a digit run, as `strconv.ParseUint(_, 10, 64)`
computes it. -/
def digitsVal (ds : List Char) : Nat := ds.foldl (fun n c => n * 10 + (c.toNat - '0'.toNat)) 0

/-- Models `strconv.ParseUint(lit[3:len(lit)-1], 10, 64)` together with
the `panic(err)` on failure: `none` when the slice bounds are invalid
(`len(lit) < 4` panics in Go), when the sliced text is empty or contains a
non-digit, or when the value overflows 64 bits. -/
def goParseIndex (lit : String) : Option Nat :=
  let cs := lit.data
  if 3 ≤ cs.length - 1 then
    let ds := (cs.drop 3).take (cs.length - 1 - 3)
    if ds ≠ [] ∧ ds.all Char.isDigit ∧ digitsVal ds < 2 ^ 64 then some (digitsVal ds) else none
  else none

/-! Models `Expression.transformLength` (lower case): on a literal ending
in `]` the index is parsed from the fixed byte range `[3, len-1)`;
otherwise the maximum over the children is taken (`max` starts at `0`).
A parse failure panics in Go, hence `none`. -/
mutual
def Expression.transformLength : Expression → Option Nat
  | .mk _ lit es =>
    if endsWithRBracket lit then goParseIndex lit
    else es.transformLengthMax
def ExprList.transformLengthMax : ExprList → Option Nat
  | .nil => some 0
  | .cons e es => do
    let a ← e.transformLength
    let b ← es.transformLengthMax
    pure (max b a)
end

/-- Models `Expression.TransformLength`: `transformLength() + 1`. -/
def Expression.TransformLength (e : Expression) : Option Nat :=
  (e.transformLength).map (· + 1)

/-! ### The `main` pipeline of `genfft.go` -/

/-- Models the signature choice in `main`:
`expressions[0].Expr[1].Lit == "xi[0]"`.  Indexing an empty expression
list, or a first statement with fewer than two operands, panics — `none`. -/
def signatureIsComplex : List Expression → Option Bool
  | [] => none
  | e :: _ =>
    match e.Expr with
    | .cons _ (.cons second _) => some (second.Lit == "xi[0]")
    | _ => none

/-- Models the `N` computation in `main`: the running `Max` over
`expr.TransformLength()` of every parsed statement, starting from `0`;
`none` when any statement's size inference panics (panics surface in
statement order, which `Option`'s bind preserves). -/
def goProgramN : List Expression → Option Nat
  | [] => some 0
  | e :: es => do
    let n ← e.TransformLength
    let m ← goProgramN es
    pure (max m n)

def goConstLines (constants : List (String × String)) : String :=
  String.join (constants.map fun c => c.1 ++ " = " ++ c.2 ++ "\n")

/-- Models the source assembly in `main` up to and excluding the final
formatting stage: `some s` is the text `main` hands to `format.Source`,
and `none` models the panics of size inference and of the signature
choice, in that order — both abort before any output is written.  The
`I = 1i` line is emitted unconditionally, before the parsed constants.
The formatting stage itself is not part of this definition: when the
assembled text is not syntactically valid Go, `format.Source` returns an
error and `main` aborts via `log.Fatal` with no output; when the text is
valid Go, it is only reformatted (whitespace) and written.  Claims that
assert output is really produced therefore use inputs whose assembled
text, shown literally in the theorem, is valid Go. -/
def genfftSource (exprs : List Expression) (constants : List (String × String)) :
    Option String := do
  let n ← goProgramN exprs
  let isC ← signatureIsComplex exprs
  pure ("package dft\n" ++ "const N = " ++ toString n ++ "\n\n"
    ++ "const (\n" ++ "I = 1i\n" ++ goConstLines constants ++ ")\n"
    ++ (if isC then "func DFT(xi, xo []complex128) \x7b\n"
        else "func DFT(ri, ii, ro, io []float64) \x7b\n")
    ++ String.join (exprs.map fun e => e.string ++ "\n")
    ++ "\x7d")

/-! ### Spec-side size inference

`specIndex` follows the specification's words: a leaf identifier of the
form `<name>[<digits>]` — final `]`, a non-empty run of digits before it,
preceded by `[` — has the bracketed digits parsed as an unsigned integer,
with no constraint on the base name's length.  This is deliberately a
formalisation of the SPEC, to be compared with `goParseIndex`.
-/

def specIndex (lit : String) : Option Nat :=
  let cs := lit.data
  let body := cs.dropLast
  let ds := (body.reverse.takeWhile Char.isDigit).reverse
  if cs.getLast? = some ']' ∧ ds ≠ [] ∧
      (body.take (body.length - ds.length)).getLast? = some '[' then
    some (digitsVal ds)
  else none

/-! Spec-side maximum bracketed index over every leaf of a tree (`0` when
there is none). -/
mutual
def Expression.specMaxIndex : Expression → Nat
  | .mk _ lit es => max ((specIndex lit).getD 0) es.specMaxIndexList
def ExprList.specMaxIndexList : ExprList → Nat
  | .nil => 0
  | .cons e es => max e.specMaxIndex es.specMaxIndexList
end

/-- Spec-side kernel size of a program: one plus the maximum index over
every leaf identifier of the whole program. -/
def specProgramN (exprs : List Expression) : Nat :=
  1 + (exprs.map Expression.specMaxIndex).foldl max 0

/-! ### Data model of the participle-based variant

`Expr` mirrors the Go struct: an identifier, or an operator with at least
one sub-expression (`Sub`), again with a mutually inductive operand list
`Exprs` for structural recursion.  The grammar (`@Id`, `"(" @Op @@+ ")"`)
guarantees that exactly one of `Ident`/`Op` is set and that an operator
node has at least one sub-expression.
-/

mutual
inductive Expr where
  | mk (Ident : String) (Op : String) (Sub : Exprs)
inductive Exprs where
  | nil
  | cons (head : Expr) (tail : Exprs)
end

def Expr.Ident : Expr → String
  | .mk i _ _ => i

def Expr.Op : Expr → String
  | .mk _ o _ => o

def Expr.Sub : Expr → Exprs
  | .mk _ _ s => s

def Exprs.length : Exprs → Nat
  | .nil => 0
  | .cons _ es => 1 + es.length

/-- Models `strings.IndexByte(ident, '[') != -1`. -/
def containsLBracket (s : String) : Bool := s.data.contains '['

/-- Models `ident[:strings.IndexByte(ident, '[')]`: the prefix before the
first `[`. -/
def identBase (s : String) : String := ⟨s.data.takeWhile (· ≠ '[')⟩

/-! Models `Expr.Inputs`: walk the whole tree and collect the base name of
every identifier that contains a bracket (assignment targets included —
the Go method recurses through `e.Sub` without skipping `Sub[0]`). -/
mutual
def Expr.Inputs : Expr → List String
  | .mk id _ subs => (if containsLBracket id then [identBase id] else []) ++ subs.InputsAll
def Exprs.InputsAll : Exprs → List String
  | .nil => []
  | .cons e es => e.Inputs ++ es.InputsAll
end

/-! ### The emitter of the participle-based variant (`Expr.Gen`)

The jennifer statement built by the Go method is modelled as the
concatenated text of its tokens: `jen.Id(s)`/`jen.Op(s)` contribute `s`,
`.Parens(x)` contributes `"(" ++ x ++ ")"`.  Branches in source order: an
identifier renders as itself; a single sub-expression renders the operator
followed by the operand; a `:=` whose first operand's identifier ends in
`]` is rewritten to `=`; then each operand after the first is appended by
`Exprs.genTail` — parenthesized after the operator when the operator is
`*` and the operand has more than one sub-operand, appended bare (no
operator token) when the operator is `+` and the operand's operator is `-`
(its arity is not inspected), and operator-then-operand otherwise.
(On an operator node with no sub-expression Go would panic at `e.Sub[0]`;
the grammar's `@@+` makes that unreachable, and the model returns `""`.)
-/

mutual
def Expr.Gen : Expr → String
  | .mk id op subs =>
    if id ≠ "" then id
    else
      match subs with
      | .cons s .nil => op ++ s.Gen
      | .nil => ""
      | .cons s rest =>
        let op1 := if op = ":=" ∧ endsWithRBracket s.Ident then "=" else op
        s.Gen ++ Exprs.genTail op1 rest
def Exprs.genTail : String → Exprs → String
  | _, .nil => ""
  | op, .cons y rest =>
    (if op = "*" ∧ 1 < y.Sub.length then op ++ "(" ++ y.Gen ++ ")"
     else if op = "+" ∧ y.Op = "-" then y.Gen
     else op ++ y.Gen)
    ++ Exprs.genTail op rest
end

/-- Models the Go struct `Constant`. -/
structure Constant where
  Name : String
  Value : String
deriving DecidableEq

/-- Models the Go struct `Program`. -/
structure Program where
  Constants : List Constant
  Statements : List Expr

/-! ### Signature inference of `Program.Gen`

`Program.Gen` collects `s.Inputs()` of every statement into a set and
tests membership of `"ri"`; only membership is ever queried, so the set is
modelled by the collected list.  The three definitions below model the
three decisions taken in the `if _, exists := argSet["ri"]` branch: the
argument names, their element type, and the constant list (with the
imaginary constant `I = 1i` prepended exactly in the complex case).
-/

def Program.inputNames (p : Program) : List String :=
  p.Statements.flatMap Expr.Inputs

def Program.isFloatDft (p : Program) : Bool := p.inputNames.contains "ri"

def Program.argNames (p : Program) : List String :=
  if p.isFloatDft then ["ri", "ii", "ro", "io"] else ["xi", "xo"]

def Program.argTypeName (p : Program) : String :=
  if p.isFloatDft then "float64" else "complex128"

def Program.genConstants (p : Program) : List Constant :=
  if p.isFloatDft then p.Constants else ⟨"I", "1i"⟩ :: p.Constants

/-- Leaf helper for readable concrete trees (genfft.go variant). -/
def Expression.leaf (s : String) : Expression := .mk "" s .nil

def ExprList.ofList : List Expression → ExprList
  | [] => .nil
  | e :: es => .cons e (ExprList.ofList es)

/-- Operator-node helper for readable concrete trees (genfft.go variant). -/
def Expression.node (op : String) (es : List Expression) : Expression :=
  .mk op "" (.ofList es)

/-- Leaf helper for readable concrete trees (participle variant). -/
def Expr.ident (s : String) : Expr := .mk s "" .nil

def Exprs.ofList : List Expr → Exprs
  | [] => .nil
  | e :: es => .cons e (Exprs.ofList es)

/-- Operator-node helper for readable concrete trees (participle variant). -/
def Expr.node (op : String) (es : List Expr) : Expr :=
  .mk "" op (.ofList es)

mutual
def Expression.esize : Expression → Nat
  | .mk _ _ es => 1 + es.lsize
def ExprList.lsize : ExprList → Nat
  | .nil => 0
  | .cons e es => 1 + e.esize + es.lsize
end

/-- Right fold used to state emitted operand sequences: each operand is
preceded by the operator, in list order. -/
def joinPre (op : String) (ls : List String) : String :=
  ls.foldr (fun s acc => op ++ s ++ acc) ""

def ExprList.isNil : ExprList → Bool
  | .nil => true
  | .cons _ _ => false

/-- A `]`-suffixed literal of the shape `genfft.go`'s fixed-position slice
decodes correctly: exactly two name characters, then `[`, then a
non-empty digit run below `2^64`, then the final `]`. -/
def goodLit (lit : String) : Bool :=
  let cs := lit.data
  decide (5 ≤ cs.length) && (cs[2]? == some '[') && (cs.getLast? == some ']')
    && decide (1 ≤ ((cs.drop 3).dropLast).length) && ((cs.drop 3).dropLast).all Char.isDigit
    && decide (digitsVal ((cs.drop 3).dropLast) < 2 ^ 64)

/-! A tree is well formed for size inference when every `]`-suffixed
literal in it is a childless leaf of the `goodLit` shape. -/
mutual
def Expression.goodTree : Expression → Bool
  | .mk _ lit es => if endsWithRBracket lit then goodLit lit && es.isNil else es.goodList
def ExprList.goodList : ExprList → Bool
  | .nil => true
  | .cons e es => e.goodTree && es.goodList
end

/-! ### Shape lemmas for the `genfft.go` emitter

These restate the defining equations of `stringHelper`/`renderTail` in a
form convenient for the proofs below; each is proved by unfolding the
definition.
-/

/-- The depth rule of `stringHelper`: parentheses exactly below depth 1. -/
def parenWrap (d : Nat) (s : String) : String := if 1 < d then "(" ++ s ++ ")" else s

/-- The `=`-to-`:=` operator rewrite of `stringHelper`. -/
def opRw (Op : String) (es : ExprList) : String :=
  if Op = "=" ∧ startsWithT (es.headD Expression.empty).Lit then ":=" else Op

theorem sh_leaf (Lit : String) (es : ExprList) (d : Nat) :
    (Expression.mk "" Lit es).stringHelper d = Lit := by
  simp [Expression.stringHelper]

theorem sh_noops (Op Lit : String) (d : Nat) (h : Op ≠ "") :
    (Expression.mk Op Lit .nil).stringHelper d = parenWrap d "" := by
  simp [Expression.stringHelper, parenWrap, h]

theorem sh_unary (Op Lit : String) (c : Expression) (d : Nat) (h : Op ≠ "") :
    (Expression.mk Op Lit (.cons c .nil)).stringHelper d
      = parenWrap d (opRw Op (.cons c .nil) ++ c.stringHelper (d + 1)) := by
  simp [Expression.stringHelper, parenWrap, opRw, h]

theorem sh_nary (Op Lit : String) (c c2 : Expression) (rest : ExprList) (d : Nat) (h : Op ≠ "") :
    (Expression.mk Op Lit (.cons c (.cons c2 rest))).stringHelper d
      = parenWrap d (c.stringHelper (d + 1)
          ++ ExprList.renderTail (opRw Op (.cons c (.cons c2 rest))) (.cons c2 rest) d) := by
  simp [Expression.stringHelper, parenWrap, opRw, h]

theorem rt_fold (lit : String) (z : Expression) (rest : ExprList) (d : Nat) :
    ExprList.renderTail "+" (.cons (.mk "-" lit (.cons z .nil)) rest) d
      = "-" ++ z.stringHelper (d + 1) ++ ExprList.renderTail "+" rest d := by
  simp [ExprList.renderTail]

theorem length_eq_one (es : ExprList) (h : es.length = 1) :
    ∃ z, es = .cons z .nil := by
  cases es with
  | nil => simp [ExprList.length] at h
  | cons z rest =>
    cases rest with
    | nil => exact ⟨z, rfl⟩
    | cons a b => simp [ExprList.length] at h

theorem rt_general (op : String) (y : Expression) (rest : ExprList) (d : Nat)
    (h : ¬(op = "+" ∧ y.Op = "-" ∧ y.Expr.length = 1)) :
    ExprList.renderTail op (.cons y rest) d
      = op ++ y.stringHelper (d + 1) ++ ExprList.renderTail op rest d := by
  refine ExprList.renderTail.eq_3 op d y rest ?_
  intro lit z hop hy
  refine h ⟨hop, ?_, ?_⟩
  · rw [hy]; rfl
  · rw [hy]; rfl

/-! ### Depth stability of the emitter

`stringHelper` distinguishes only `depth ≤ 1` from `depth ≥ 2`; rendering
is invariant among depths `≥ 2`.  Proved by strong induction on an
explicit size measure of the mutually inductive trees.
-/

theorem parenWrap_ge2 (d : Nat) (s : String) (h : 2 ≤ d) :
    parenWrap d s = "(" ++ s ++ ")" := by
  unfold parenWrap
  rw [if_pos (show 1 < d by omega)]

theorem parenWrap_le1 (d : Nat) (s : String) (h : d ≤ 1) : parenWrap d s = s := by
  unfold parenWrap
  rw [if_neg (show ¬1 < d by omega)]

theorem shStable (n : Nat) :
    (∀ e : Expression, e.esize ≤ n → ∀ d, 2 ≤ d → e.stringHelper d = e.stringHelper 2) ∧
    (∀ es : ExprList, es.lsize ≤ n → ∀ op d, 1 ≤ d →
      ExprList.renderTail op es d = ExprList.renderTail op es 1) := by
  induction n using Nat.strong_induction_on with
  | _ n ih =>
  constructor
  · rintro ⟨Op, Lit, es⟩ hsz d hd
    by_cases hOp : Op = ""
    · subst hOp; rw [sh_leaf, sh_leaf]
    · cases es with
      | nil =>
        rw [sh_noops _ _ _ hOp, sh_noops _ _ _ hOp,
          parenWrap_ge2 _ _ hd, parenWrap_ge2 _ _ (by omega)]
      | cons c rest =>
        have hsz1 : 1 + (1 + c.esize + rest.lsize) ≤ n := by
          simpa [Expression.esize, ExprList.lsize] using hsz
        have ihc := (ih c.esize (by omega)).1 c le_rfl
        cases rest with
        | nil =>
          rw [sh_unary _ _ _ _ hOp, sh_unary _ _ _ _ hOp,
            parenWrap_ge2 _ _ hd, parenWrap_ge2 _ _ (by omega),
            ihc (d + 1) (by omega), ihc (2 + 1) (by omega)]
        | cons c2 rest2 =>
          have ihrt := (ih (ExprList.cons c2 rest2).lsize (by
            simp only [ExprList.lsize] at hsz1 ⊢; omega)).2 (.cons c2 rest2) le_rfl
          rw [sh_nary _ _ _ _ _ _ hOp, sh_nary _ _ _ _ _ _ hOp,
            parenWrap_ge2 _ _ hd, parenWrap_ge2 _ _ (by omega),
            ihc (d + 1) (by omega), ihc (2 + 1) (by omega),
            ihrt _ d (by omega), ihrt _ 2 (by omega)]
  · intro es hsz op d hd
    cases es with
    | nil => rw [ExprList.renderTail.eq_1, ExprList.renderTail.eq_1]
    | cons y rest =>
      have hsz1 : 1 + y.esize + rest.lsize ≤ n := by
        simpa [ExprList.lsize] using hsz
      have ihrest := (ih rest.lsize (by omega)).2 rest le_rfl
      by_cases hf : op = "+" ∧ y.Op = "-" ∧ y.Expr.length = 1
      · obtain ⟨hop, hyop, hlen⟩ := hf
        subst hop
        rcases y with ⟨yOp, yLit, ySub⟩
        simp only [Expression.Op] at hyop
        subst hyop
        simp only [Expression.Expr] at hlen
        obtain ⟨z, hz⟩ := length_eq_one _ hlen
        subst hz
        have hze : z.esize + 3 ≤ 1 + (Expression.mk "-" yLit (.cons z .nil)).esize := by
          simp only [Expression.esize, ExprList.lsize]
          omega
        have ihz := (ih z.esize (by omega)).1 z le_rfl
        rw [rt_fold, rt_fold, ihz (d + 1) (by omega), ihz (1 + 1) (by omega),
          ihrest "+" d hd]
      · rw [rt_general _ _ _ _ hf, rt_general _ _ _ _ hf,
          ((ih y.esize (by omega)).1 y le_rfl) (d + 1) (by omega),
          ((ih y.esize (by omega)).1 y le_rfl) (1 + 1) (by omega),
          ihrest op d hd]

/-- Rendering is independent of the depth once the depth is at least 2. -/
theorem sh_ge2 (e : Expression) (d : Nat) (h : 2 ≤ d) :
    e.stringHelper d = e.stringHelper 2 :=
  (shStable e.esize).1 e le_rfl d h

/-- Operand-tail rendering is independent of the depth once it is at least 1. -/
theorem rt_ge1 (op : String) (es : ExprList) (d : Nat) (h : 1 ≤ d) :
    ExprList.renderTail op es d = ExprList.renderTail op es 1 :=
  (shStable es.lsize).2 es le_rfl op d h

/-- Every operation node rendered at depth 2 or more is wrapped in
parentheses around its depth-independent body (the body equals the node's
rendering at depth 1, where no wrapping occurs). -/
theorem sh_paren (e : Expression) (d : Nat) (hOp : e.Op ≠ "") (hd : 2 ≤ d) :
    e.stringHelper d = "(" ++ e.stringHelper 1 ++ ")" := by
  rcases e with ⟨Op, Lit, es⟩
  simp only [Expression.Op] at hOp
  cases es with
  | nil =>
    rw [sh_noops _ _ _ hOp, sh_noops _ _ _ hOp,
      parenWrap_ge2 _ _ hd, parenWrap_le1 _ _ (by omega)]
  | cons c rest =>
    cases rest with
    | nil =>
      rw [sh_unary _ _ _ _ hOp, sh_unary _ _ _ _ hOp,
        parenWrap_ge2 _ _ hd, parenWrap_le1 _ _ (by omega),
        sh_ge2 c (d + 1) (by omega), sh_ge2 c (1 + 1) (by omega)]
    | cons c2 rest2 =>
      rw [sh_nary _ _ _ _ _ _ hOp, sh_nary _ _ _ _ _ _ hOp,
        parenWrap_ge2 _ _ hd, parenWrap_le1 _ _ (by omega),
        sh_ge2 c (d + 1) (by omega), sh_ge2 c (1 + 1) (by omega),
        rt_ge1 _ _ d (by omega)]

theorem opRw_eq (Op : String) (c : Expression) (rest : ExprList) :
    opRw Op (.cons c rest) = if Op = "=" ∧ startsWithT c.Lit then ":=" else Op := by
  simp [opRw, ExprList.headD]

/-- Rendering of a two-operand statement root in `genfft.go`: the target
literal, then `:=` or `=` by the `T`-prefix test, then the value rendered
at depth 1 — no parentheses at the root or around the value. -/
theorem string_stmt (t : String) (rhs : Expression) :
    (Expression.mk "=" "" (.cons (.leaf t) (.cons rhs .nil))).string
      = t ++ ((if startsWithT t then ":=" else "=") ++ rhs.stringHelper 1) := by
  unfold Expression.string Expression.leaf
  rw [sh_nary _ _ _ _ _ _ (by decide), parenWrap_le1 _ _ (by omega), sh_leaf,
    opRw_eq]
  simp only [Expression.Lit, true_and]
  rw [rt_general _ _ _ _ (by split <;> simp), ExprList.renderTail.eq_1]
  simp [String.append_assoc]

theorem gen_ident (s : String) (h : s ≠ "") (op : String) (subs : Exprs) :
    (Expr.mk s op subs).Gen = s := by
  rw [Expr.Gen.eq_def]
  simp [h]

theorem gen_unary (op : String) (s : Expr) :
    (Expr.mk "" op (.cons s .nil)).Gen = op ++ s.Gen := by
  simp [Expr.Gen]

theorem gen_nary (op : String) (s y : Expr) (rest : Exprs) :
    (Expr.mk "" op (.cons s (.cons y rest))).Gen
      = s.Gen ++ Exprs.genTail
          (if op = ":=" ∧ endsWithRBracket s.Ident then "=" else op) (.cons y rest) := by
  simp [Expr.Gen]

/-! ## Claim C1 -/

/-- C1 counterexample: the claim's exception clause is false on
`genfft.go`.  In the parsed and emitted statement
`(:= T1 (* xi[0] (- xi[1])))` the unary operation `(- xi[1])` occurs
strictly below the top level (depth 2) and its rendering there is
`"(-xi[1])"` — the emitter wraps the unary operation in its own enclosing
parentheses instead of rendering bare `-xi[1]`. -/
theorem C1_counterexample :
    (Expression.Parse "(:= T1 (* xi[0] (- xi[1])))").string = "T1:=xi[0]*(-xi[1])" ∧
    (Expression.mk "-" "" (.cons (.mk "" "xi[1]" .nil) .nil)).stringHelper 2
      = "(" ++ ("-" ++ "xi[1]") ++ ")" := by
  constructor
  · decide
  · decide

/-- Outside the multiplication-grouping branch, the participle emitter
appends every non-first operand without enclosing parentheses (only the
unary-minus fold can drop the operator token). -/
theorem genTail_nonmult (op : String) (y : Expr) (rest : Exprs)
    (h : ¬(op = "*" ∧ 1 < y.Sub.length)) :
    Exprs.genTail op (.cons y rest)
      = (if op = "+" ∧ y.Op = "-" then y.Gen else op ++ y.Gen) ++ Exprs.genTail op rest := by
  simp only [Exprs.genTail]
  rw [if_neg h]

/-- C1 (amended): in `genfft.go`, the statement root is never
parenthesized and the root's immediate operands are rendered without
enclosing parentheses; every operation node at depth 2 or more — unary
operations included, with no exception — is wrapped in parentheses around
its depth-1 rendering.  The participle variant applies no depth-based
parenthesization at all: its renderer takes no depth, a unary operation
renders as its operator directly followed by its operand's rendering with
no parentheses, and outside the multiplication-grouping rule every
further operand is appended bare, so for instance a sum nested inside a
sum renders unparenthesized.  Formally: (1) a `genfft.go` operation node
rendered at depth `d ≥ 2` yields `"(" ++ body ++ ")"` where `body` is its
depth-1 rendering; (2) a two-operand statement root renders as the bare
target literal, the chosen assignment operator, and the value's depth-1
rendering, with no parentheses added at either level; (3) a participle
unary operation renders operator-then-operand with no parentheses; (4)
outside the `*` grouping rule `genTail` appends operands unwrapped; (5)
`(+ a (+ b c))` renders as `a+b+c`. -/
theorem C1_amended :
    (∀ (e : Expression) (d : Nat), e.Op ≠ "" → 2 ≤ d →
      e.stringHelper d = "(" ++ e.stringHelper 1 ++ ")") ∧
    (∀ (t : String) (rhs : Expression),
      (Expression.mk "=" "" (.cons (.leaf t) (.cons rhs .nil))).string
        = t ++ ((if startsWithT t then ":=" else "=") ++ rhs.stringHelper 1)) ∧
    (∀ (op : String) (s : Expr), (Expr.mk "" op (.cons s .nil)).Gen = op ++ s.Gen) ∧
    (∀ (op : String) (y : Expr) (rest : Exprs), ¬(op = "*" ∧ 1 < y.Sub.length) →
      Exprs.genTail op (.cons y rest)
        = (if op = "+" ∧ y.Op = "-" then y.Gen else op ++ y.Gen) ++ Exprs.genTail op rest) ∧
    (Expr.node "+" [.ident "a", .node "+" [.ident "b", .ident "c"]]).Gen = "a+b+c" :=
  ⟨sh_paren, string_stmt, gen_unary, genTail_nonmult, by decide⟩

/-- C1 witness: the amended claim applied at the unary node `(- xi[1])`
at depth 2, at the statement `T1 := xi[0]`, and at the participle
operand tail `+ (+ b c)` (a nested sum appended without parentheses). -/
theorem C1_amended_witness :
    ((Expression.mk "-" "" (.cons (.mk "" "xi[1]" .nil) .nil)).Op ≠ "" ∧
      (Expression.mk "-" "" (.cons (.mk "" "xi[1]" .nil) .nil)).stringHelper 2
        = "(" ++ (Expression.mk "-" "" (.cons (.mk "" "xi[1]" .nil) .nil)).stringHelper 1 ++ ")") ∧
    ((Expression.mk "=" "" (.cons (.leaf "T1") (.cons (.leaf "xi[0]") .nil))).string
      = "T1" ++ ((if startsWithT "T1" then ":=" else "=") ++ (Expression.leaf "xi[0]").stringHelper 1)) ∧
    (¬("+" = "*" ∧ 1 < (Expr.node "+" [.ident "b", .ident "c"]).Sub.length) ∧
      Exprs.genTail "+" (.cons (Expr.node "+" [.ident "b", .ident "c"]) .nil)
        = (if "+" = "+" ∧ (Expr.node "+" [.ident "b", .ident "c"]).Op = "-"
           then (Expr.node "+" [.ident "b", .ident "c"]).Gen
           else "+" ++ (Expr.node "+" [.ident "b", .ident "c"]).Gen)
          ++ Exprs.genTail "+" .nil) :=
  ⟨⟨by decide, C1_amended.1 _ 2 (by decide) (by omega)⟩,
   C1_amended.2.1 "T1" (.leaf "xi[0]"),
   ⟨by decide, C1_amended.2.2.2.1 "+" (Expr.node "+" [.ident "b", .ident "c"]) .nil (by decide)⟩⟩

/-! ## Claim C2 -/

/-- C2: a binary `*` whose right operand is an operation with more than
one sub-operand renders that operand wrapped in explicit parentheses, in
both emitters.  For `genfft.go` the node is rendered at any depth `d ≥ 1`
(every `*` node inside a statement is below the `:=` root, hence at such a
depth) and the right operand, at depth `d + 1 ≥ 2`, is wrapped by the
depth rule; for the participle variant the multiplication rule adds the
parentheses directly.  The concrete schedule statement
`(:= T1 (* xi[0] (+ xi[1] xi[2])))` renders with explicit parentheses
around the sum in both emitters. -/
theorem C2_mult_grouping :
    (∀ (a b : Expression) (d : Nat), 1 ≤ d → b.Op ≠ "" → 1 < b.Expr.length →
      (Expression.node "*" [a, b]).stringHelper d
        = parenWrap d (a.stringHelper (d + 1) ++ ("*" ++ ("(" ++ b.stringHelper 1 ++ ")")))) ∧
    (∀ (a b : Expr), 1 < b.Sub.length →
      (Expr.node "*" [a, b]).Gen = a.Gen ++ ("*" ++ "(" ++ b.Gen ++ ")")) ∧
    (Expression.Parse "(:= T1 (* xi[0] (+ xi[1] xi[2])))").string
      = "T1:=" ++ "xi[0]" ++ "*" ++ "(" ++ "xi[1]+xi[2]" ++ ")" ∧
    (Expr.node ":=" [.ident "T1",
      .node "*" [.ident "xi[0]", .node "+" [.ident "xi[1]", .ident "xi[2]"]]]).Gen
      = "T1" ++ ":=" ++ "xi[0]" ++ "*" ++ "(" ++ "xi[1]+xi[2]" ++ ")" := by
  refine ⟨?_, ?_, by decide, by decide⟩
  · intro a b d hd hb hlen
    simp only [Expression.node, ExprList.ofList]
    rw [sh_nary _ _ _ _ _ _ (by decide), opRw_eq]
    rw [rt_general _ _ _ _ (by simp), ExprList.renderTail.eq_1,
      sh_paren b (d + 1) hb (by omega)]
    simp [String.append_assoc]
  · intro a b hlen
    simp only [Expr.node, Exprs.ofList]
    rw [gen_nary]
    simp [Exprs.genTail, hlen, String.append_assoc]

/-- C2 witness: the general parts applied at
`(* xi[0] (+ xi[1] xi[2]))` at depth 1. -/
theorem C2_mult_grouping_witness :
    (1 ≤ 1 ∧ (Expression.node "+" [.leaf "xi[1]", .leaf "xi[2]"]).Op ≠ "" ∧
      1 < (Expression.node "+" [.leaf "xi[1]", .leaf "xi[2]"]).Expr.length ∧
      (Expression.node "*" [.leaf "xi[0]",
        Expression.node "+" [.leaf "xi[1]", .leaf "xi[2]"]]).stringHelper 1
        = parenWrap 1 ((Expression.leaf "xi[0]").stringHelper 2
            ++ ("*" ++ ("(" ++ (Expression.node "+" [.leaf "xi[1]", .leaf "xi[2]"]).stringHelper 1 ++ ")")))) ∧
    (1 < (Expr.node "+" [.ident "xi[1]", .ident "xi[2]"]).Sub.length ∧
      (Expr.node "*" [.ident "xi[0]", Expr.node "+" [.ident "xi[1]", .ident "xi[2]"]]).Gen
        = (Expr.ident "xi[0]").Gen
            ++ ("*" ++ "(" ++ (Expr.node "+" [.ident "xi[1]", .ident "xi[2]"]).Gen ++ ")")) :=
  ⟨⟨by omega, by decide, by decide,
    C2_mult_grouping.1 _ _ 1 (by omega) (by decide) (by decide)⟩,
   ⟨by decide, C2_mult_grouping.2.1 _ _ (by decide)⟩⟩

/-! ## Claim C3 -/

/-- C3: under an n-ary `+`, a non-first operand that is a unary `-`
contributes a bare `-` followed by its single sub-expression's rendering —
no `+` token precedes it and numeric meaning and order are preserved — in
both emitters; the contribution rule holds at every non-first operand
position (arbitrary remaining tail).  The concrete statement
`(:= T2 (+ xi[0] (- xi[1])))` emits as `T2:=xi[0]-xi[1]` in both emitters. -/
theorem C3_unary_minus_folding :
    (∀ (lit : String) (b : Expression) (rest : ExprList) (d : Nat),
      ExprList.renderTail "+" (.cons (.mk "-" lit (.cons b .nil)) rest) d
        = ("-" ++ b.stringHelper (d + 1)) ++ ExprList.renderTail "+" rest d) ∧
    (∀ (b : Expr) (rest : Exprs),
      Exprs.genTail "+" (.cons (.mk "" "-" (.cons b .nil)) rest)
        = ("-" ++ b.Gen) ++ Exprs.genTail "+" rest) ∧
    (Expression.Parse "(:= T2 (+ xi[0] (- xi[1])))").string
      = "T2" ++ ":=" ++ "xi[0]" ++ "-" ++ "xi[1]" ∧
    (Expr.node ":=" [.ident "T2",
      .node "+" [.ident "xi[0]", .node "-" [.ident "xi[1]"]]]).Gen
      = "T2" ++ ":=" ++ "xi[0]" ++ "-" ++ "xi[1]" := by
  refine ⟨?_, ?_, by decide, by decide⟩
  · intro lit b rest d
    rw [rt_fold, String.append_assoc]
  · intro b rest
    simp [Exprs.genTail, Expr.Op, Expr.Sub, gen_unary]

/-! ## Claim C6 -/

/-- Rendering of a two-operand statement root in the participle variant:
the target identifier, then `=` or `:=` by the `]`-suffix test, then the
value's rendering. -/
theorem gen_stmt (t : String) (ht : t ≠ "") (rhs : Expr) :
    (Expr.mk "" ":=" (.cons (.mk t "" .nil) (.cons rhs .nil))).Gen
      = t ++ ((if endsWithRBracket t then "=" else ":=") ++ rhs.Gen) := by
  rw [gen_nary, gen_ident t ht]
  simp only [Expr.Ident, true_and]
  by_cases h : endsWithRBracket t
  · simp [h, Exprs.genTail, String.append_assoc]
  · simp [h, Exprs.genTail, String.append_assoc]

/-- C6 counterexample: the target `T1[2]` is an indexed array element
(its name ends in a `[digits]` suffix), yet `genfft.go` emits the
statement `(:= T1[2] xi[0])` as the fresh binding `T1[2]:=xi[0]` — the
`T`-prefix test takes precedence, contradicting "never as a fresh
binding". -/
theorem C6_counterexample :
    endsWithRBracket "T1[2]" = true ∧
    (Expression.Parse "(:= T1[2] xi[0])").string = "T1[2]" ++ ":=" ++ "xi[0]" := by
  constructor
  · decide
  · decide

/-- C6 (amended): in `genfft.go` the `T`-prefix test alone selects the
operator: a target literal beginning with `T` is emitted as a `:=`
binding (even when the target is an indexed element such as `T1[2]`),
and any other target is emitted as a plain `=` assignment.  In the
participle variant the `]`-suffix test alone selects the operator: an
indexed target is always emitted as a plain `=` assignment (even when
its name begins with `T`), and any other target as a `:=` binding.  On
the targets the upstream generator actually emits — temporaries
`T<digits>` (prefix `T`, not indexed) and array slots like `ro[2]`
(indexed, not `T`-prefixed) — the two implementations agree with the
claim. -/
theorem C6_amended :
    (∀ (t : String) (rhs : Expression), startsWithT t = true →
      (Expression.mk "=" "" (.cons (.leaf t) (.cons rhs .nil))).string
        = t ++ (":=" ++ rhs.stringHelper 1)) ∧
    (∀ (t : String) (rhs : Expression), startsWithT t = false →
      (Expression.mk "=" "" (.cons (.leaf t) (.cons rhs .nil))).string
        = t ++ ("=" ++ rhs.stringHelper 1)) ∧
    (∀ (t : String) (rhs : Expr), t ≠ "" → endsWithRBracket t = true →
      (Expr.mk "" ":=" (.cons (.mk t "" .nil) (.cons rhs .nil))).Gen
        = t ++ ("=" ++ rhs.Gen)) ∧
    (∀ (t : String) (rhs : Expr), t ≠ "" → endsWithRBracket t = false →
      (Expr.mk "" ":=" (.cons (.mk t "" .nil) (.cons rhs .nil))).Gen
        = t ++ (":=" ++ rhs.Gen)) := by
  refine ⟨fun t rhs h => ?_, fun t rhs h => ?_, fun t rhs ht h => ?_, fun t rhs ht h => ?_⟩
  · rw [string_stmt, h]; rfl
  · rw [string_stmt, h]; rfl
  · rw [gen_stmt t ht, h]; rfl
  · rw [gen_stmt t ht, h]; rfl

/-- C6 witness: the amended claim applied at the temporary target `T3`
and the array-slot target `ro[2]` in both emitters. -/
theorem C6_amended_witness :
    (startsWithT "T3" = true ∧
      (Expression.mk "=" "" (.cons (.leaf "T3") (.cons (.leaf "xi[0]") .nil))).string
        = "T3" ++ (":=" ++ (Expression.leaf "xi[0]").stringHelper 1)) ∧
    (startsWithT "ro[2]" = false ∧
      (Expression.mk "=" "" (.cons (.leaf "ro[2]") (.cons (.leaf "xi[0]") .nil))).string
        = "ro[2]" ++ ("=" ++ (Expression.leaf "xi[0]").stringHelper 1)) ∧
    (endsWithRBracket "ro[2]" = true ∧
      (Expr.mk "" ":=" (.cons (.mk "ro[2]" "" .nil) (.cons (.ident "T3") .nil))).Gen
        = "ro[2]" ++ ("=" ++ (Expr.ident "T3").Gen)) ∧
    (endsWithRBracket "T3" = false ∧
      (Expr.mk "" ":=" (.cons (.mk "T3" "" .nil) (.cons (.ident "xi[0]") .nil))).Gen
        = "T3" ++ (":=" ++ (Expr.ident "xi[0]").Gen)) :=
  ⟨⟨by decide, C6_amended.1 "T3" _ (by decide)⟩,
   ⟨by decide, C6_amended.2.1 "ro[2]" _ (by decide)⟩,
   ⟨by decide, C6_amended.2.2.1 "ro[2]" _ (by decide) (by decide)⟩,
   ⟨by decide, C6_amended.2.2.2 "T3" _ (by decide) (by decide)⟩⟩

/-! ## Claim C7 -/

theorem rt_leafList (op : String) (ls : List String) (d : Nat) :
    ExprList.renderTail op (.ofList (ls.map Expression.leaf)) d = joinPre op ls := by
  induction ls with
  | nil => simp [joinPre, ExprList.ofList, ExprList.renderTail]
  | cons s rest ih =>
    simp only [List.map_cons, ExprList.ofList]
    rw [rt_general _ _ _ _ (by rintro ⟨-, h2, -⟩; simp [Expression.leaf, Expression.Op] at h2)]
    simp only [Expression.leaf, sh_leaf, ih, joinPre, List.foldr, String.append_assoc]

theorem genTail_identList (op : String) (ls : List String) (h : ∀ s ∈ ls, s ≠ "") :
    Exprs.genTail op (.ofList (ls.map Expr.ident)) = joinPre op ls := by
  induction ls with
  | nil => simp [joinPre, Exprs.ofList, Exprs.genTail]
  | cons s rest ih =>
    simp only [List.map_cons, Exprs.ofList]
    have hs : s ≠ "" := h s (by simp)
    have hrest : ∀ x ∈ rest, x ≠ "" := fun x hx => h x (by simp [hx])
    simp only [Exprs.genTail, Expr.ident, Expr.Sub, Exprs.length, Expr.Op]
    rw [gen_ident s hs, ih hrest]
    simp [joinPre, String.append_assoc]

/-- C7: for n-ary `+` and `-` nodes over distinguishable operand
literals, the emitted operand sequence equals the parsed operand list in
order (first operand bare, each later operand preceded by the operator),
in both emitters; no reordering or re-association occurs. -/
theorem C7_operand_order :
    (∀ (a b : String) (ls : List String),
      (Expression.mk "+" "" (.ofList ((a :: b :: ls).map Expression.leaf))).stringHelper 1
        = a ++ joinPre "+" (b :: ls)) ∧
    (∀ (a b : String) (ls : List String),
      (Expression.mk "-" "" (.ofList ((a :: b :: ls).map Expression.leaf))).stringHelper 1
        = a ++ joinPre "-" (b :: ls)) ∧
    (∀ (a b : String) (ls : List String), a ≠ "" → b ≠ "" → (∀ s ∈ ls, s ≠ "") →
      (Expr.mk "" "+" (.ofList ((a :: b :: ls).map Expr.ident))).Gen
        = a ++ joinPre "+" (b :: ls)) ∧
    (∀ (a b : String) (ls : List String), a ≠ "" → b ≠ "" → (∀ s ∈ ls, s ≠ "") →
      (Expr.mk "" "-" (.ofList ((a :: b :: ls).map Expr.ident))).Gen
        = a ++ joinPre "-" (b :: ls)) := by
  have hgo : ∀ (op : String), op ≠ "" → op ≠ "=" →
      ∀ (a b : String) (ls : List String),
      (Expression.mk op "" (.ofList ((a :: b :: ls).map Expression.leaf))).stringHelper 1
        = a ++ joinPre op (b :: ls) := by
    intro op hne hneq a b ls
    simp only [List.map_cons, ExprList.ofList]
    rw [sh_nary _ _ _ _ _ _ hne, parenWrap_le1 _ _ (by omega), opRw_eq]
    rw [if_neg (by rintro ⟨h1, -⟩; exact hneq h1)]
    have := rt_leafList op (b :: ls) 1
    simp only [List.map_cons, ExprList.ofList] at this
    rw [this]
    simp [Expression.leaf, sh_leaf]
  have hgen : ∀ (op : String), op ≠ ":=" →
      ∀ (a b : String) (ls : List String), a ≠ "" → b ≠ "" → (∀ s ∈ ls, s ≠ "") →
      (Expr.mk "" op (.ofList ((a :: b :: ls).map Expr.ident))).Gen
        = a ++ joinPre op (b :: ls) := by
    intro op hne a b ls ha hb hls
    simp only [List.map_cons, Exprs.ofList]
    rw [gen_nary, if_neg (by rintro ⟨h1, -⟩; exact hne h1)]
    simp only [Expr.ident]
    rw [gen_ident a ha]
    have := genTail_identList op (b :: ls) (by
      intro s hs
      rcases List.mem_cons.mp hs with h | h
      · rw [h]; exact hb
      · exact hls s h)
    simp only [List.map_cons, Exprs.ofList, Expr.ident] at this
    rw [this]
  exact ⟨hgo "+" (by decide) (by decide), hgo "-" (by decide) (by decide),
    hgen "+" (by decide), hgen "-" (by decide)⟩

/-- C7 witness: order preservation applied to the operand literals
`xi[0]`, `xi[1]`, `xi[2]` under `+` in the participle emitter. -/
theorem C7_operand_order_witness :
    ("xi[0]" ≠ "" ∧ "xi[1]" ≠ "" ∧ (∀ s ∈ ["xi[2]"], s ≠ "")) ∧
    (Expr.mk "" "+" (.ofList (["xi[0]", "xi[1]", "xi[2]"].map Expr.ident))).Gen
      = "xi[0]" ++ joinPre "+" ["xi[1]", "xi[2]"] :=
  ⟨⟨by decide, by decide, by decide⟩,
   C7_operand_order.2.2.1 "xi[0]" "xi[1]" ["xi[2]"] (by decide) (by decide) (by decide)⟩

/-! ## Claim C10 -/

/-- C10: the participle emitter's addition folding tests only the
operand's operator symbol, not its arity: under an n-ary `+`, a non-first
operand whose operator is `-` with two or more sub-operands is appended
with no intervening `+` token and no enclosing parentheses, so its own
rendering `b-c` lands directly against the previous operand; only the
single-operand case yields the intended `a-b` form.  Concretely,
`(+ a (- b c))` renders as the token text `ab-c`. -/
theorem C10_arity_blind_folding :
    (∀ (b c : Expr) (rest2 tail : Exprs),
      Exprs.genTail "+" (.cons (.mk "" "-" (.cons b (.cons c rest2))) tail)
        = (Expr.mk "" "-" (.cons b (.cons c rest2))).Gen ++ Exprs.genTail "+" tail) ∧
    (∀ (b c : Expr),
      (Expr.mk "" "-" (.cons b (.cons c .nil))).Gen = b.Gen ++ ("-" ++ c.Gen)) ∧
    (Expr.node "+" [.ident "a", .node "-" [.ident "b", .ident "c"]]).Gen = "ab-c" := by
  refine ⟨?_, ?_, by decide⟩
  · intro b c rest2 tail
    simp [Exprs.genTail, Expr.Op, Expr.Sub]
  · intro b c
    rw [gen_nary]
    simp [Exprs.genTail, String.append_assoc]

/-! ## Claim C9 -/

/-- C9: the signature choice of `genfft.go`'s `main` evaluates
`expressions[0].Expr[1].Lit` with no emptiness check: on an empty
statement list (for instance from an empty input file, or one whose
every line is taken by the constant regex) it panics with an
index-out-of-range error (modelled as `none`), and the whole pipeline
aborts without producing output or a diagnostic; the same happens when
the first statement's root has fewer than two operands; a first
statement with at least two operands always reaches the comparison with
`"xi[0]"` — that shape is an unchecked precondition of generation. -/
theorem C9_unchecked_first_statement :
    signatureIsComplex [] = none ∧
    (∀ consts, genfftSource [] consts = none) ∧
    (∀ (Op Lit : String) (es : List Expression),
      signatureIsComplex (.mk Op Lit .nil :: es) = none) ∧
    (∀ (Op Lit : String) (a : Expression) (es : List Expression),
      signatureIsComplex (.mk Op Lit (.cons a .nil) :: es) = none) ∧
    (∀ (Op Lit : String) (a b : Expression) (rest : ExprList) (es : List Expression),
      signatureIsComplex (.mk Op Lit (.cons a (.cons b rest)) :: es)
        = some (b.Lit == "xi[0]")) :=
  ⟨rfl, fun _ => rfl, fun _ _ _ => rfl, fun _ _ _ _ => rfl, fun _ _ _ _ _ _ => rfl⟩

/-! ## Claim C4 -/

/-- C4 counterexample: `genfft.go` contradicts the claim twice.  (1) For
the program `(:= T1 ri[0])` — whose only array input has base name `ri` —
the emitted source has the four-array real signature but still contains
the imaginary-unit constant line `I = 1i`, so the constant does not
appear only in the complex case.  (2) For the program
`(:= T1 xi[0])`, `(:= ro[0] ri[0])`, which reads `ri[0]`, the emitted
source has the two-array complex signature (the choice tests only
`expressions[0].Expr[1].Lit == "xi[0]"`), not the four-array one; the
third conjunct checks that the participle variant's own input collection
classifies that same program as an `ri` (float) program. -/
theorem C4_counterexample :
    genfftSource [Expression.Parse "(:= T1 ri[0])"] []
      = some ("package dft\nconst N = 1\n\nconst (\nI = 1i\n)\n"
          ++ "func DFT(ri, ii, ro, io []float64) \x7b\nT1:=ri[0]\n\x7d") ∧
    genfftSource [Expression.Parse "(:= T1 xi[0])", Expression.Parse "(:= ro[0] ri[0])"] []
      = some ("package dft\nconst N = 1\n\nconst (\nI = 1i\n)\n"
          ++ "func DFT(xi, xo []complex128) \x7b\nT1:=xi[0]\nro[0]=ri[0]\n\x7d") ∧
    (Program.mk [] [Expr.node ":=" [.ident "T1", .ident "xi[0]"],
      Expr.node ":=" [.ident "ro[0]", .ident "ri[0]"]]).isFloatDft = true := by
  refine ⟨by decide, by decide, by decide⟩

/-- C4 (amended): the participle variant behaves as the claim states,
with "input identifier" meaning every bracket-indexed identifier the code
collects (assignment targets included): if any such identifier's base
name is `ri` the kernel gets the four real `float64` array parameters and
the constant list is left unchanged; otherwise it gets the two
`complex128` array parameters and the imaginary-unit constant `I = 1i` is
prepended as the first constant.  `genfft.go` instead chooses the
signature solely by whether the first statement's second operand literal
equals `xi[0]`, and emits the `I = 1i` constant line unconditionally, in
the real case as well. -/
theorem C4_amended :
    (∀ p : Program, p.inputNames.contains "ri" = true →
      p.argNames = ["ri", "ii", "ro", "io"] ∧ p.argTypeName = "float64" ∧
      p.genConstants = p.Constants) ∧
    (∀ p : Program, p.inputNames.contains "ri" = false →
      p.argNames = ["xi", "xo"] ∧ p.argTypeName = "complex128" ∧
      p.genConstants = ⟨"I", "1i"⟩ :: p.Constants) ∧
    (∀ (exprs : List Expression) (consts : List (String × String)) (s : String),
      genfftSource exprs consts = some s → ∃ u v, s = u ++ "I = 1i\n" ++ v) ∧
    (∀ (Op Lit : String) (a b : Expression) (rest : ExprList) (es : List Expression)
      (consts : List (String × String)) (s : String),
      genfftSource (.mk Op Lit (.cons a (.cons b rest)) :: es) consts = some s →
      ∃ u v, s = u ++ (if b.Lit == "xi[0]" then "func DFT(xi, xo []complex128) \x7b\n"
          else "func DFT(ri, ii, ro, io []float64) \x7b\n") ++ v) := by
  refine ⟨?_, ?_, ?_, ?_⟩
  · intro p h
    have h' : p.isFloatDft = true := h
    simp [Program.argNames, Program.argTypeName, Program.genConstants, h']
  · intro p h
    have h' : p.isFloatDft = false := h
    simp [Program.argNames, Program.argTypeName, Program.genConstants, h']
  · intro exprs consts s h
    simp only [genfftSource, Option.bind_eq_bind] at h
    cases hn : goProgramN exprs with
    | none => rw [hn] at h; simp at h
    | some n =>
      rw [hn] at h
      simp only [Option.some_bind] at h
      cases hc : signatureIsComplex exprs with
      | none => rw [hc] at h; simp at h
      | some isC =>
        rw [hc] at h
        simp only [Option.some_bind, Option.pure_def, Option.some.injEq] at h
        refine ⟨"package dft\n" ++ "const N = " ++ toString n ++ "\n\n" ++ "const (\n",
          goConstLines consts ++ ")\n"
            ++ (if isC then "func DFT(xi, xo []complex128) \x7b\n"
                else "func DFT(ri, ii, ro, io []float64) \x7b\n")
            ++ String.join (exprs.map fun e => e.string ++ "\n") ++ "\x7d", ?_⟩
        rw [← h]
        simp [String.append_assoc]
  · intro Op Lit a b rest es consts s h
    simp only [genfftSource, Option.bind_eq_bind] at h
    cases hn : goProgramN (Expression.mk Op Lit (.cons a (.cons b rest)) :: es) with
    | none => rw [hn] at h; simp at h
    | some n =>
      rw [hn] at h
      simp only [Option.some_bind] at h
      have hc : signatureIsComplex (Expression.mk Op Lit (.cons a (.cons b rest)) :: es)
          = some (b.Lit == "xi[0]") := rfl
      rw [hc] at h
      simp only [Option.some_bind, Option.pure_def, Option.some.injEq] at h
      refine ⟨"package dft\n" ++ "const N = " ++ toString n ++ "\n\n" ++ "const (\n"
          ++ "I = 1i\n" ++ goConstLines consts ++ ")\n",
        String.join ((Expression.mk Op Lit (.cons a (.cons b rest)) :: es).map
          fun e => e.string ++ "\n") ++ "\x7d", ?_⟩
      rw [← h]
      rcases Bool.eq_false_or_eq_true (b.Lit == "xi[0]") with hb | hb <;>
        simp [hb, String.append_assoc]

/-- C4 witness: the amended claim applied to a concrete one-statement
`ri` program (participle side) and to a concrete `genfftSource` run
(unconditional `I = 1i` in the real-signature output). -/
theorem C4_amended_witness :
    ((Program.mk [] [Expr.node ":=" [.ident "T1", .ident "ri[0]"]]).inputNames.contains "ri"
        = true ∧
      (Program.mk [] [Expr.node ":=" [.ident "T1", .ident "ri[0]"]]).argNames
        = ["ri", "ii", "ro", "io"] ∧
      (Program.mk [] [Expr.node ":=" [.ident "T1", .ident "ri[0]"]]).argTypeName = "float64" ∧
      (Program.mk [] [Expr.node ":=" [.ident "T1", .ident "ri[0]"]]).genConstants = []) ∧
    (∃ u v, ("package dft\nconst N = 1\n\nconst (\nI = 1i\n)\n"
        ++ "func DFT(ri, ii, ro, io []float64) \x7b\nT1:=ri[0]\n\x7d") = u ++ "I = 1i\n" ++ v) :=
  ⟨⟨by decide, C4_amended.1 _ (by decide)⟩,
   C4_amended.2.2.1 [Expression.Parse "(:= T1 ri[0])"] [] _ (by decide)⟩

/-! ## Claim C8 -/

theorem goProgramN_isSome (l : List Expression)
    (h : ∀ x ∈ l, (x.transformLength).isSome = true) :
    (goProgramN l).isSome = true := by
  induction l with
  | nil => rfl
  | cons e es ih =>
    have he := h e (by simp)
    have hes := ih (fun x hx => h x (by simp [hx]))
    obtain ⟨n, hn⟩ := Option.isSome_iff_exists.mp he
    obtain ⟨m, hm⟩ := Option.isSome_iff_exists.mp hes
    simp [goProgramN, Expression.TransformLength, hn, hm]

theorem goProgramN_none (l : List Expression) (x : Expression) (hx : x ∈ l)
    (hnone : x.transformLength = none) : goProgramN l = none := by
  induction l with
  | nil => simp at hx
  | cons e es ih =>
    rcases List.mem_cons.mp hx with rfl | hx2
    · simp [goProgramN, Expression.TransformLength, hnone]
    · have hes := ih hx2
      cases he : e.TransformLength with
      | none => simp [goProgramN, he]
      | some n => simp [goProgramN, he, hes]

theorem signatureIsComplex_isSome (e : Expression) (es : List Expression)
    (h : 2 ≤ e.Expr.length) : (signatureIsComplex (e :: es)).isSome = true := by
  rcases e with ⟨Op, Lit, subs⟩
  simp only [Expression.Expr] at h
  cases subs with
  | nil => exact absurd h (by simp [ExprList.length])
  | cons a rest =>
    cases rest with
    | nil => exact absurd h (by simp [ExprList.length])
    | cons b rest2 => rfl

/-- C8 counterexample: grammar-violating lines are parsed without any
failure and the `genfft.go` job really produces output for them.  For the
unbalanced line `(:= T1 (+ xi[0] xi[1]` (missing closing parentheses) and
for `(:= T1 a%b)` (the operator symbol `%`, outside `:=`/`+`/`-`/`*`,
silently folded into an operand literal), the assembled texts below are
syntactically valid Go, so the final `format.Source` stage accepts them
and the job writes real output — parsing does not fail and the job does
not abort.  The third conjunct shows the parser not failing even on
`(:= T1 (% xi[0] xi[1]))`: it silently yields a node with no operator,
whose statement renders as the invalid body `T1:=`; that input aborts
only later, in the formatting stage (the spec's FormatError class), not
as a grammar rejection, and with silently wrong text rather than a
parse-time diagnostic. -/
theorem C8_counterexample :
    genfftSource [Expression.Parse "(:= T1 (+ xi[0] xi[1]"] []
      = some ("package dft\nconst N = 2\n\nconst (\nI = 1i\n)\n"
          ++ "func DFT(ri, ii, ro, io []float64) \x7b\nT1:=xi[0]+xi[1]\n\x7d") ∧
    genfftSource [Expression.Parse "(:= T1 a%b)"] []
      = some ("package dft\nconst N = 1\n\nconst (\nI = 1i\n)\n"
          ++ "func DFT(ri, ii, ro, io []float64) \x7b\nT1:=a%b\n\x7d") ∧
    (Expression.Parse "(:= T1 (% xi[0] xi[1]))").string = "T1:=" := by
  refine ⟨by decide, by decide, by decide⟩

/-- C8 (amended): `genfft.go`'s parser never rejects a line — unknown
operator characters are folded into operand literals and unbalanced
parentheses are silently tolerated — so no grammar violation is ever
detected: for any statement list whose size inference succeeds and whose
first statement has at least two operands, the job assembles its full
output text and reaches the final formatting stage (first conjunct); the
formatter then writes real output whenever that text is valid Go, as in
the counterexample, and is the only remaining abort point (it rejects
text a silent misparse made invalid, such as the empty right-hand side
`T1:=` — the spec's FormatError, not a grammar rejection).  The only
grammar-category input that aborts of itself is a `]`-suffixed leaf
whose bytes at positions `3..len-2` do not parse as an unsigned integer:
any such leaf anywhere in the program panics during size inference,
before any text is assembled, and no output at all is produced (second
conjunct). -/
theorem C8_amended :
    (∀ (e : Expression) (es : List Expression) (consts : List (String × String)),
      (∀ x ∈ e :: es, (x.transformLength).isSome = true) → 2 ≤ e.Expr.length →
      (genfftSource (e :: es) consts).isSome = true) ∧
    (∀ (exprs : List Expression) (consts : List (String × String)) (x : Expression),
      x ∈ exprs → x.transformLength = none →
      genfftSource exprs consts = none) := by
  constructor
  · intro e es consts hall hlen
    obtain ⟨n, hn⟩ := Option.isSome_iff_exists.mp (goProgramN_isSome (e :: es) hall)
    obtain ⟨isC, hc⟩ := Option.isSome_iff_exists.mp (signatureIsComplex_isSome e es hlen)
    simp [genfftSource, hn, hc]
  · intro exprs consts x hx hnone
    have h := goProgramN_none exprs x hx hnone
    simp [genfftSource, h]

/-- C8 witness: the amended claim applied to the unbalanced statement
`(:= T1 (+ xi[0] xi[1]` (no grammar rejection: the job reaches the
formatting stage, and its assembled text is valid Go) and to the
bad-index statement `(:= T1 a[x])` (fatal during size inference, no
output). -/
theorem C8_amended_witness :
    ((∀ x ∈ [Expression.Parse "(:= T1 (+ xi[0] xi[1]"],
        (x.transformLength).isSome = true) ∧
      2 ≤ (Expression.Parse "(:= T1 (+ xi[0] xi[1]").Expr.length ∧
      (genfftSource [Expression.Parse "(:= T1 (+ xi[0] xi[1]"] []).isSome = true) ∧
    ((Expression.Parse "(:= T1 a[x])") ∈ [Expression.Parse "(:= T1 a[x])"] ∧
      (Expression.Parse "(:= T1 a[x])").transformLength = none ∧
      genfftSource [Expression.Parse "(:= T1 a[x])"] [] = none) :=
  ⟨⟨by decide, by decide,
    C8_amended.1 _ [] [] (by decide) (by decide)⟩,
   ⟨by simp, by decide,
    C8_amended.2 [Expression.Parse "(:= T1 a[x])"] []
      (Expression.Parse "(:= T1 a[x])") (by simp) (by decide)⟩⟩

/-! ## Claim C5 -/

theorem goodLit_shape (lit : String) (h : goodLit lit = true) :
    ∃ (c0 c1 : Char) (ds : List Char),
      lit.data = c0 :: c1 :: '[' :: (ds ++ [']']) ∧ ds ≠ [] ∧
      ds.all Char.isDigit = true ∧ digitsVal ds < 2 ^ 64 := by
  unfold goodLit at h
  simp only [Bool.and_eq_true, decide_eq_true_eq, beq_iff_eq] at h
  obtain ⟨⟨⟨⟨⟨hlen, h2⟩, hlast⟩, hds⟩, hdig⟩, hlt⟩ := h
  cases cs0 : lit.data with
  | nil => rw [cs0] at hlen; simp at hlen
  | cons c0 cs1 =>
    cases cs1 with
    | nil => rw [cs0] at hlen; simp at hlen
    | cons c1 cs2 =>
      cases cs2 with
      | nil => rw [cs0] at hlen; simp at hlen
      | cons c2 rest =>
        rw [cs0] at hlen h2 hlast hds hdig hlt
        have hc2 : c2 = '[' := by
          simpa using h2
        have hrne : rest ≠ [] := by
          intro hr
          rw [hr] at hlen
          simp at hlen
        have hrest := List.dropLast_append_getLast hrne
        have hlastr : rest.getLast hrne = ']' := by
          have h1 : (c0 :: c1 :: c2 :: rest).getLast? = rest.getLast? := by
            cases rest with
            | nil => exact absurd rfl hrne
            | cons r rs => simp [List.getLast?_cons_cons]
          rw [h1, List.getLast?_eq_getLast rest hrne] at hlast
          exact Option.some.inj hlast
        have hdrop : (c0 :: c1 :: c2 :: rest).drop 3 = rest := rfl
        rw [hdrop] at hds hdig hlt
        refine ⟨c0, c1, rest.dropLast, ?_, ?_, hdig, hlt⟩
        · rw [hc2]
          rw [hlastr] at hrest
          rw [hrest]
        · intro hempty
          rw [hempty] at hds
          simp at hds

theorem takeWhile_all_append (p : Char → Bool) (l1 : List Char) (b : Char) (l2 : List Char)
    (h1 : l1.all p = true) (hb : p b = false) :
    (l1 ++ b :: l2).takeWhile p = l1 := by
  induction l1 with
  | nil => simp [List.takeWhile_cons, hb]
  | cons x xs ih =>
    simp only [List.all_cons, Bool.and_eq_true] at h1
    simp [List.takeWhile_cons, h1.1, ih h1.2]

theorem goodLit_index (lit : String) (h : goodLit lit = true) :
    ∃ v, goParseIndex lit = some v ∧ specIndex lit = some v := by
  obtain ⟨c0, c1, ds, hdata, hne, hdig, hlt⟩ := goodLit_shape lit h
  refine ⟨digitsVal ds, ?_, ?_⟩
  · simp only [goParseIndex, hdata]
    have hlen : (c0 :: c1 :: '[' :: (ds ++ [']'])).length = ds.length + 4 := by simp
    rw [hlen, if_pos (by omega)]
    have hdrop : (c0 :: c1 :: '[' :: (ds ++ [']'])).drop 3 = ds ++ [']'] := rfl
    rw [hdrop, show ds.length + 4 - 1 - 3 = ds.length by omega, List.take_left]
    rw [if_pos ⟨hne, hdig, hlt⟩]
  · simp only [specIndex, hdata]
    have hsplit : c0 :: c1 :: '[' :: (ds ++ [']']) = (c0 :: c1 :: '[' :: ds) ++ [']'] := by
      simp
    rw [hsplit, List.dropLast_concat, List.getLast?_concat]
    have hrev : (c0 :: c1 :: '[' :: ds).reverse = ds.reverse ++ '[' :: [c1, c0] := by
      simp
    rw [hrev, takeWhile_all_append Char.isDigit ds.reverse '[' [c1, c0]
      (by rwa [List.all_reverse]) (by decide), List.reverse_reverse]
    have htake : (c0 :: c1 :: '[' :: ds).length - ds.length = 3 := by
      simp only [List.length_cons]
      omega
    rw [htake]
    have h3 : (c0 :: c1 :: '[' :: ds).take 3 = [c0, c1, '['] := rfl
    rw [h3, if_pos ⟨rfl, hne, rfl⟩]

theorem specIndex_none (lit : String) (h : endsWithRBracket lit = false) :
    specIndex lit = none := by
  simp only [specIndex]
  rw [if_neg]
  rintro ⟨h1, -, -⟩
  unfold endsWithRBracket at h
  rw [h1] at h
  simp at h

theorem tlGood (n : Nat) :
    (∀ e : Expression, e.esize ≤ n → e.goodTree = true →
      e.transformLength = some e.specMaxIndex) ∧
    (∀ es : ExprList, es.lsize ≤ n → es.goodList = true →
      es.transformLengthMax = some es.specMaxIndexList) := by
  induction n using Nat.strong_induction_on with
  | _ n ih =>
  constructor
  · rintro ⟨Op, lit, es⟩ hsz hg
    cases hb : endsWithRBracket lit with
    | true =>
      simp only [Expression.goodTree, hb, if_true, Bool.and_eq_true] at hg
      obtain ⟨hgl, hnil⟩ := hg
      have hes : es = .nil := by
        cases es with
        | nil => rfl
        | cons a b => simp [ExprList.isNil] at hnil
      subst hes
      obtain ⟨v, hgo, hspec⟩ := goodLit_index lit hgl
      simp only [Expression.transformLength, hb, if_true, hgo,
        Expression.specMaxIndex, ExprList.specMaxIndexList, hspec, Option.getD_some,
        Nat.max_zero]
    | false =>
      simp only [Expression.goodTree, hb, Bool.false_eq_true, if_false] at hg
      have hsz1 : es.lsize ≤ n := by
        simp only [Expression.esize] at hsz
        omega
      have hrec : es.transformLengthMax = some es.specMaxIndexList := by
        rcases Nat.lt_or_ge 0 n with hn | hn
        · exact (ih (n - 1) (by omega)).2 es (by
            simp only [Expression.esize] at hsz
            omega) hg
        · interval_cases n
          · cases es with
            | nil => rfl
            | cons a b =>
              exfalso
              simp only [Expression.esize, ExprList.lsize] at hsz
              omega
      simp only [Expression.transformLength, hb, Bool.false_eq_true, if_false, hrec,
        Expression.specMaxIndex, specIndex_none lit hb, Option.getD_none, Nat.zero_max]
  · intro es hsz hg
    cases es with
    | nil => rfl
    | cons e rest =>
      simp only [ExprList.goodList, Bool.and_eq_true] at hg
      obtain ⟨hge, hgrest⟩ := hg
      have hsz1 : 1 + e.esize + rest.lsize ≤ n := by
        simpa [ExprList.lsize] using hsz
      have ihe := (ih e.esize (by omega)).1 e le_rfl hge
      have ihrest := (ih rest.lsize (by omega)).2 rest le_rfl hgrest
      simp only [ExprList.transformLengthMax, ihe, ihrest, Option.bind_eq_bind,
        Option.some_bind, Option.pure_def, ExprList.specMaxIndexList, Option.some.injEq]
      exact Nat.max_comm _ _

/-- Under `goodTree`, `genfft.go`'s per-statement size equals one plus
the spec-side maximum bracketed index of the statement. -/
theorem TransformLength_good (e : Expression) (h : e.goodTree = true) :
    e.TransformLength = some (1 + e.specMaxIndex) := by
  have := (tlGood e.esize).1 e le_rfl h
  simp [Expression.TransformLength, this, Nat.add_comm]

theorem foldl_max_init (l : List Nat) (a : Nat) : l.foldl max a = max a (l.foldl max 0) := by
  induction l generalizing a with
  | nil => simp
  | cons x l ih =>
    simp only [List.foldl_cons]
    rw [ih (max a x), ih (max 0 x)]
    omega

theorem goProgramN_good (e : Expression) (es : List Expression)
    (h : ∀ x ∈ e :: es, x.goodTree = true) :
    goProgramN (e :: es) = some (specProgramN (e :: es)) := by
  induction es generalizing e with
  | nil =>
    have he := TransformLength_good e (h e (by simp))
    simp only [goProgramN, he, Option.bind_eq_bind, Option.some_bind, Option.pure_def,
      specProgramN, List.map_cons, List.map_nil, List.foldl_cons, List.foldl_nil,
      Option.some.injEq]
    omega
  | cons f rest ih =>
    have he := TransformLength_good e (h e (by simp))
    have hrest := ih f (fun x hx => h x (by
      rcases List.mem_cons.mp hx with rfl | hx2
      · simp
      · simp [hx2]))
    simp only [goProgramN, he, Option.bind_eq_bind, Option.some_bind, Option.pure_def] at hrest ⊢
    rw [hrest]
    simp only [Option.some_bind, Option.some.injEq]
    simp only [specProgramN, List.map_cons, List.foldl_cons]
    rw [foldl_max_init ((rest.map Expression.specMaxIndex)) (max 0 f.specMaxIndex),
      foldl_max_init ((rest.map Expression.specMaxIndex))
        (max (max 0 e.specMaxIndex) f.specMaxIndex)]
    omega

/-- C5 counterexample: `genfft.go` does not parse the bracketed digits of
a leaf — it slices the fixed byte range `[3, len-1)`.  For the statement
`(:= ro[0] a[12])`, whose leaf `a[12]` has a one-letter base name, the
spec-side rule gives N = 1 + max {0, 12} = 13, but the code misreads the
index of `a[12]` as `2` (the single byte at position 3) and infers
N = 3; the inferred kernel size is not one plus the maximum bracketed
index. -/
theorem C5_counterexample :
    goProgramN [Expression.Parse "(:= ro[0] a[12])"] = some 3 ∧
    specProgramN [Expression.Parse "(:= ro[0] a[12])"] = 13 ∧
    goProgramN [Expression.Parse "(:= ro[0] a[12])"]
      ≠ some (specProgramN [Expression.Parse "(:= ro[0] a[12])"]) := by
  refine ⟨by decide, by decide, by decide⟩

/-- C5 (amended): the index of a `]`-suffixed leaf is decoded from the
fixed byte positions `3 .. len-2` of the literal, which equals the
bracketed digits exactly when the base name has exactly two characters
(as do all identifiers `xi`, `ri`, `ii`, `ro`, `io` the upstream
generator emits; `goodTree` states that shape, with indices below
`2^64`).  Under that shape, per statement the inferred size is one plus
the statement's maximum bracketed index, and over a (non-empty) program
the inferred N is one plus the maximum bracketed index of the entire
program, targets included.  Base names of other lengths are misread or
abort, as the counterexample shows. -/
theorem C5_amended :
    (∀ e : Expression, e.goodTree = true →
      e.TransformLength = some (1 + e.specMaxIndex)) ∧
    (∀ (e : Expression) (es : List Expression), (∀ x ∈ e :: es, x.goodTree = true) →
      goProgramN (e :: es) = some (specProgramN (e :: es))) :=
  ⟨TransformLength_good, goProgramN_good⟩

/-- C5 witness: the amended claim applied to the parsed two-character
base-name program `(:= ro[2] (+ xi[0] xi[1]))`, whose maximum bracketed
index is 2 and inferred N is 3. -/
theorem C5_amended_witness :
    ((Expression.Parse "(:= ro[2] (+ xi[0] xi[1]))").goodTree = true ∧
      (Expression.Parse "(:= ro[2] (+ xi[0] xi[1]))").TransformLength
        = some (1 + (Expression.Parse "(:= ro[2] (+ xi[0] xi[1]))").specMaxIndex)) ∧
    ((∀ x ∈ [Expression.Parse "(:= ro[2] (+ xi[0] xi[1]))"], x.goodTree = true) ∧
      goProgramN [Expression.Parse "(:= ro[2] (+ xi[0] xi[1]))"]
        = some (specProgramN [Expression.Parse "(:= ro[2] (+ xi[0] xi[1]))"])) :=
  ⟨⟨by decide, C5_amended.1 _ (by decide)⟩,
   ⟨by decide, C5_amended.2 (Expression.Parse "(:= ro[2] (+ xi[0] xi[1]))") [] (by decide)⟩⟩

